import Mathlib

/-!
# Verification of the spatial filter engine (Xu_ly_anh)

Shallow embedding of the neighborhood-aggregation filters of the repository:
`MeanFilter`, `MedianFilter`, `MinFilter`, `MaxFilter`, `MidpointFilter`,
`GeometricMeanFilter`, `HarmonicMeanFilter`, `ContraharmonicMeanFilter`
(`src/src/*.js`, `src/unnamed/part_002`) and `GaussianFilter`
(`src/unnamed/part_002`).

Pixels are 8-bit channel values stored row-major, 4 channels per pixel
(R, G, B, A).  An `ImageData`/`Uint8ClampedArray` pair is modelled as an
`Img` record whose `data` field is a total function from flat offsets to
channel values; well-formed images have every channel value `≤ 255`.
JavaScript double arithmetic is modelled exactly over `ℚ` where the source
only uses field operations, and over `ℝ` where it uses `Math.exp` /
`Math.log` (geometric mean, Gaussian kernel).  `Math.pow` appears only with
the Contraharmonic `Q` exponent; it is modelled by `zpow` over `ℚ` for
integer `Q`, which covers the exponents the specification constrains
(`Q = 0` and `Q = −1`).
-/

namespace XuLyAnh

/-- Source `Math.round`: round half toward positive infinity, i.e. `⌊q + 1/2⌋`. -/
def jround (q : ℚ) : ℤ := ⌊q + 1/2⌋

/-- Source `Math.round` on the real-valued computation paths. -/
noncomputable def jroundR (x : ℝ) : ℤ := ⌊x + 1/2⌋

/-- The `epsilon = 1e-10` guard used by the power-mean filters. -/
def eps : ℚ := 1 / 10000000000

/-- The same guard on the real-valued path (geometric mean). -/
noncomputable def epsR : ℝ := (eps : ℝ)

/-- Clamp an integer into `[0, 255]` (`Math.max(0, Math.min(255, ·))`). -/
def clamp255 (z : ℤ) : ℤ := max 0 (min 255 z)

/-- Storing an integer into a `Uint8ClampedArray` slot: clamp to `[0,255]`. -/
def ustore (z : ℤ) : ℕ := (clamp255 z).toNat

/-- An RGBA raster: `width`, `height` and the flat channel array.
Offset of channel `ch` of pixel `(x, y)` is `(y*width + x)*4 + ch`. -/
structure Img where
  width : ℕ
  height : ℕ
  data : ℕ → ℕ

/-- Source `Uint8ClampedArray` contents are 8-bit: every channel value is `≤ 255`. -/
def Img.wellFormed (img : Img) : Prop := ∀ i, img.data i ≤ 255

/-- The boundary policy shared by all aggregator filters
(`calculateMeanValues` and its clones): reflect a coordinate that is out of
range (`if (validX < 0) validX = Math.abs(validX); if (validX >= width)
validX = width - 1 - (validX - width + 1);`) and then clamp the result into
`[0, n-1]` (`Math.max(0, Math.min(width - 1, validX))`). -/
def reflect (c : ℤ) (n : ℕ) : ℤ :=
  let c1 : ℤ := if c < 0 then -c else c
  let c2 : ℤ := if (n : ℤ) ≤ c1 then (n : ℤ) - 1 - (c1 - (n : ℤ) + 1) else c1
  max 0 (min ((n : ℤ) - 1) c2)

/-- The edge-clamp boundary policy of the Gaussian convolution passes
(`Math.max(0, Math.min(width - 1, newX))`). -/
def clampIdx (c : ℤ) (n : ℕ) : ℤ := max 0 (min ((n : ℤ) - 1) c)

/-- Kernel offsets `-radius .. radius`, in loop order. -/
def offs (r : ℕ) : List ℤ := (List.range (2*r+1)).map (fun i : ℕ => (i : ℤ) - (r : ℤ))

/-- The in-range position actually sampled for center `(cx, cy)` and kernel
offset `(dx, dy)`, after reflection and clamping. -/
def samplePos (img : Img) (cx cy : ℕ) (dx dy : ℤ) : ℕ × ℕ :=
  ((reflect ((cx : ℤ) + dx) img.width).toNat,
   (reflect ((cy : ℤ) + dy) img.height).toNat)

/-- The channel value sampled at offset `(dx, dy)` from center `(cx, cy)`. -/
def sampleAt (img : Img) (cx cy : ℕ) (dx dy : ℤ) (ch : ℕ) : ℕ :=
  let p := samplePos img cx cy dx dy
  img.data ((p.2 * img.width + p.1) * 4 + ch)

/-- The neighborhood samples of channel `ch` around `(cx, cy)` for kernel
radius `r`, in the traversal order of the source's double loop
(outer `dy`, inner `dx`). -/
def neigh (img : Img) (r cx cy ch : ℕ) : List ℕ :=
  (offs r).flatMap (fun dy => (offs r).map (fun dx => sampleAt img cx cy dx dy ch))

/-- The generic per-pixel sweep shared by every aggregator's
`processImageData`: every output R, G, B channel is the per-pixel compute
result stored through the `Uint8ClampedArray`, and the alpha channel is
copied verbatim from the input (`newData[pixelIndex + 3] =
originalData[pixelIndex + 3]`). -/
def processRGB (img : Img) (f : ℕ → ℕ → ℕ → ℤ) : Img :=
  { width := img.width
    height := img.height
    data := fun i =>
      if i % 4 = 3 then img.data i
      else ustore (f ((i / 4) % img.width) ((i / 4) / img.width) (i % 4)) }

end XuLyAnh

namespace MeanFilter

open XuLyAnh

/-- Source `MeanFilter.calculateMeanValues`, one channel: sum the reflected
neighborhood and return `Math.round(sum / count)`. -/
def calculateMeanValue (l : List ℕ) : ℤ := jround ((l.sum : ℚ) / (l.length : ℚ))

/-- Source `MeanFilter.processImageData` for kernel size `k`
(`radius = Math.floor(k / 2)`). -/
def processImageData (k : ℕ) (img : Img) : Img :=
  processRGB img (fun x y ch => calculateMeanValue (neigh img (k / 2) x y ch))

/-- Source `MeanFilter` constructor: throws when `kernelSize % 2 === 0`. -/
def construct (k : ℕ) : Option ℕ := if k % 2 = 0 then none else some k

end MeanFilter

namespace MedianFilter

open XuLyAnh

/-- The per-channel histogram built by `calculateMedianValues`:
`hist[v]` counts the neighborhood samples equal to `v`.  The bins live in
a `Uint16Array` (`new Uint16Array(256)`), so each bin wraps modulo
`2^16 = 65536` when incremented past 65535. -/
def hist (l : List ℕ) (v : ℕ) : ℕ := l.count v % 65536

/-- The cumulative histogram count up to bin `i` (the running `sum` of the
`findMedian` scan). -/
def cumul (l : List ℕ) (i : ℕ) : ℕ := ((List.range (i+1)).map (hist l)).sum

/-- Source `medianIndex = Math.floor(totalPixels / 2) + 1` with
`totalPixels = kernelSize * kernelSize`. -/
def medianIndex (k : ℕ) : ℕ := (k * k) / 2 + 1

/-- Source `findMedian`: scan bins `0 .. 255` and return the first index at which
the cumulative count reaches `medianIndex`; return 255 if never reached. -/
def findMedian (l : List ℕ) (mIdx : ℕ) : ℕ :=
  ((List.range 256).find? (fun i => mIdx ≤ cumul l i)).getD 255

/-- Source `MedianFilter.processImageData` for kernel size `k`. -/
def processImageData (k : ℕ) (img : Img) : Img :=
  processRGB img (fun x y ch => (findMedian (neigh img (k / 2) x y ch) (medianIndex k) : ℤ))

/-- Source `MedianFilter` constructor: throws when `kernelSize % 2 === 0`. -/
def construct (k : ℕ) : Option ℕ := if k % 2 = 0 then none else some k

end MedianFilter

namespace MinFilter

open XuLyAnh

/-- Source `MinFilter.calculateMinValues`, one channel: fold `Math.min` over the
neighborhood starting from 255. -/
def calculateMinValue (l : List ℕ) : ℕ := l.foldl Nat.min 255

/-- Source `MinFilter.processImageData` for kernel size `k`. -/
def processImageData (k : ℕ) (img : Img) : Img :=
  processRGB img (fun x y ch => (calculateMinValue (neigh img (k / 2) x y ch) : ℤ))

/-- Source `MinFilter` constructor: throws when `kernelSize % 2 === 0`. -/
def construct (k : ℕ) : Option ℕ := if k % 2 = 0 then none else some k

end MinFilter

namespace MaxFilter

open XuLyAnh

/-- Source `MaxFilter.calculateMaxValues`, one channel: fold `Math.max` over the
neighborhood starting from 0. -/
def calculateMaxValue (l : List ℕ) : ℕ := l.foldl Nat.max 0

/-- Source `MaxFilter.processImageData` for kernel size `k`. -/
def processImageData (k : ℕ) (img : Img) : Img :=
  processRGB img (fun x y ch => (calculateMaxValue (neigh img (k / 2) x y ch) : ℤ))

/-- Source `MaxFilter` constructor: throws when `kernelSize % 2 === 0`. -/
def construct (k : ℕ) : Option ℕ := if k % 2 = 0 then none else some k

end MaxFilter

namespace MidpointFilter

open XuLyAnh

/-- Source `MidpointFilter.calculateMidpointValues`, one channel:
`Math.round((min + max) / 2)` over the neighborhood extrema. -/
def calculateMidpointValue (l : List ℕ) : ℤ :=
  jround ((((l.foldl Nat.min 255 : ℕ) : ℚ) + ((l.foldl Nat.max 0 : ℕ) : ℚ)) / 2)

/-- Source `MidpointFilter.processImageData` for kernel size `k`. -/
def processImageData (k : ℕ) (img : Img) : Img :=
  processRGB img (fun x y ch => calculateMidpointValue (neigh img (k / 2) x y ch))

/-- Source `MidpointFilter` constructor: throws when `kernelSize % 2 === 0`. -/
def construct (k : ℕ) : Option ℕ := if k % 2 = 0 then none else some k

end MidpointFilter

namespace GeometricMeanFilter

open XuLyAnh

/-- Source `GeometricMeanFilter.calculateGeometricMean`, one channel:
`Math.round(Math.exp(sumLog / count))` with
`sumLog = Σ Math.log(sample + epsilon)`. -/
noncomputable def calculateGeometricMean (l : List ℕ) : ℤ :=
  jroundR (Real.exp ((l.map (fun v : ℕ => Real.log ((v : ℝ) + epsR))).sum / (l.length : ℝ)))

/-- Source `GeometricMeanFilter.processImageData` for kernel size `k`. -/
noncomputable def processImageData (k : ℕ) (img : Img) : Img :=
  processRGB img (fun x y ch => calculateGeometricMean (neigh img (k / 2) x y ch))

/-- Source `GeometricMeanFilter` constructor: throws when `kernelSize % 2 === 0`. -/
def construct (k : ℕ) : Option ℕ := if k % 2 = 0 then none else some k

end GeometricMeanFilter

namespace HarmonicMeanFilter

open XuLyAnh

/-- Source `HarmonicMeanFilter.calculateHarmonicMean`, one channel:
`Math.round(count / sumInv)` with `sumInv = Σ 1.0 / (sample + epsilon)`. -/
def calculateHarmonicMean (l : List ℕ) : ℤ :=
  jround ((l.length : ℚ) / (l.map (fun v : ℕ => 1 / ((v : ℚ) + eps))).sum)

/-- Source `HarmonicMeanFilter.processImageData` for kernel size `k`. -/
def processImageData (k : ℕ) (img : Img) : Img :=
  processRGB img (fun x y ch => calculateHarmonicMean (neigh img (k / 2) x y ch))

/-- Source `HarmonicMeanFilter` constructor: throws when `kernelSize % 2 === 0`. -/
def construct (k : ℕ) : Option ℕ := if k % 2 = 0 then none else some k

end HarmonicMeanFilter

namespace ContraharmonicMeanFilter

open XuLyAnh

/-- Source `ContraharmonicMeanFilter.calculateContraharmonicMean`, one channel:
`Math.max(0, Math.min(255, Math.round(sumPowerQPlus1 / (sumPowerQ + epsilon))))`
with `sumPowerQPlus1 = Σ (sample + epsilon)^(Q+1)` and
`sumPowerQ = Σ (sample + epsilon)^Q`.  `Math.pow` is modelled by `zpow`,
covering every integer exponent `Q`. -/
def calculateContraharmonicMean (Q : ℤ) (l : List ℕ) : ℤ :=
  clamp255 (jround ((l.map (fun v : ℕ => ((v : ℚ) + eps) ^ (Q + 1))).sum /
    ((l.map (fun v : ℕ => ((v : ℚ) + eps) ^ Q)).sum + eps)))

/-- Source `ContraharmonicMeanFilter.processImageData` for kernel size `k` and
order `Q`. -/
def processImageData (k : ℕ) (Q : ℤ) (img : Img) : Img :=
  processRGB img (fun x y ch => calculateContraharmonicMean Q (neigh img (k / 2) x y ch))

/-- Source `ContraharmonicMeanFilter` constructor: throws when
`kernelSize % 2 === 0` (for any `Q`). -/
def construct (k : ℕ) (Q : ℤ) : Option (ℕ × ℤ) :=
  if k % 2 = 0 then none else some (k, Q)

end ContraharmonicMeanFilter

namespace GaussianFilter

open XuLyAnh

/-- The default kernel size `Math.ceil(6 * sigma) | 1` chosen by the
`GaussianFilter` constructor when no explicit size is supplied.  `sigma` is
a JavaScript double, modelled as a rational; the bitwise or acts on the
non-negative integer `Math.ceil(6 * sigma)`. -/
def defaultKernelSize (sigma : ℚ) : ℕ := (Int.toNat ⌈6 * sigma⌉) ||| 1

/-- Source `GaussianFilter` constructor: with an explicit kernel size, throw when
it is even; without one, use `defaultKernelSize`. -/
def construct (sigma : ℚ) (ksize : Option ℕ) : Option (ℚ × ℕ) :=
  match ksize with
  | none => some (sigma, defaultKernelSize sigma)
  | some k => if k % 2 = 0 then none else some (sigma, k)

/-- One unnormalized entry of `createGaussianKernel`:
`Math.exp(-(x * x) / sigma2)` with `x = i - radius` and
`sigma2 = 2 * sigma * sigma`. -/
noncomputable def kernelRaw (sigma : ℝ) (k i : ℕ) : ℝ :=
  Real.exp (-(((i : ℝ) - ((k / 2 : ℕ) : ℝ)) ^ 2) / (2 * sigma * sigma))

/-- The normalizing sum of `createGaussianKernel`. -/
noncomputable def kernelSum (sigma : ℝ) (k : ℕ) : ℝ :=
  ∑ i ∈ Finset.range k, kernelRaw sigma k i

/-- The normalized Gaussian kernel entry (`kernel[i] /= sum`). -/
noncomputable def kernel (sigma : ℝ) (k i : ℕ) : ℝ :=
  kernelRaw sigma k i / kernelSum sigma k

/-- Source `Math.round(Math.max(0, Math.min(255, sum)))` applied to each channel
of a convolution result. -/
noncomputable def convRound (s : ℝ) : ℤ := jroundR (max 0 (min 255 s))

/-- Source `convolveHorizontal`: weighted sum over the kernel along the row, with
edge-clamp boundary handling. -/
noncomputable def convolveHorizontal (sigma : ℝ) (k : ℕ) (img : Img)
    (x y ch : ℕ) : ℝ :=
  ∑ i ∈ Finset.range k,
    (img.data ((y * img.width + (clampIdx ((x : ℤ) + (i : ℤ) - ((k / 2 : ℕ) : ℤ)) img.width).toNat) * 4 + ch) : ℝ)
      * kernel sigma k i

/-- Source `convolveVertical`: weighted sum over the kernel along the column, with
edge-clamp boundary handling. -/
noncomputable def convolveVertical (sigma : ℝ) (k : ℕ) (img : Img)
    (x y ch : ℕ) : ℝ :=
  ∑ i ∈ Finset.range k,
    (img.data (((clampIdx ((y : ℤ) + (i : ℤ) - ((k / 2 : ℕ) : ℤ)) img.height).toNat * img.width + x) * 4 + ch) : ℝ)
      * kernel sigma k i

/-- Source `applyHorizontalConvolution`: full-image horizontal pass; alpha is
copied from its input. -/
noncomputable def applyHorizontalConvolution (sigma : ℝ) (k : ℕ) (img : Img) : Img :=
  processRGB img (fun x y ch => convRound (convolveHorizontal sigma k img x y ch))

/-- Source `applyVerticalConvolution`: full-image vertical pass; alpha is copied
from its input. -/
noncomputable def applyVerticalConvolution (sigma : ℝ) (k : ℕ) (img : Img) : Img :=
  processRGB img (fun x y ch => convRound (convolveVertical sigma k img x y ch))

/-- The Gaussian sweep of `applyFilter`: the horizontal pass feeds the
vertical pass. -/
noncomputable def processImageData (sigma : ℝ) (k : ℕ) (img : Img) : Img :=
  applyVerticalConvolution sigma k (applyHorizontalConvolution sigma k img)

end GaussianFilter

namespace XuLyAnh

/-- The outcome of one `applyFilter` invocation.  `result` is the filtered
raster; `fallbackBlur` is the lower-fidelity CSS-blur approximation some
classes resolve with when pixel access fails (`applySimpleFilter`);
`rejected` is the promise rejection used by the classes that propagate the
pixel-access error. -/
inductive FilterOutcome where
  | result (img : Img)
  | fallbackBlur
  | rejected

/-- The result of trying to read the source raster's pixels
(`ctx.getImageData`): `none` models a `PixelAccessError` such as a
cross-origin restriction. -/
abbrev PixelRead := Option Img

end XuLyAnh

namespace MeanFilter

open XuLyAnh

/-- Source `MeanFilter.applyFilter`: on a pixel-access failure it resolves with
the CSS-blur fallback; otherwise it resolves with the processed raster. -/
def applyFilter (k : ℕ) (read : PixelRead) : FilterOutcome :=
  match read with
  | none => .fallbackBlur
  | some img => .result (processImageData k img)

end MeanFilter

namespace MedianFilter

open XuLyAnh

/-- Source `MedianFilter.applyFilter`: CSS-blur fallback on pixel-access failure. -/
def applyFilter (k : ℕ) (read : PixelRead) : FilterOutcome :=
  match read with
  | none => .fallbackBlur
  | some img => .result (processImageData k img)

end MedianFilter

namespace GeometricMeanFilter

open XuLyAnh

/-- Source `GeometricMeanFilter.applyFilter`: CSS-blur fallback on pixel-access
failure. -/
noncomputable def applyFilter (k : ℕ) (read : PixelRead) : FilterOutcome :=
  match read with
  | none => .fallbackBlur
  | some img => .result (processImageData k img)

end GeometricMeanFilter

namespace HarmonicMeanFilter

open XuLyAnh

/-- Source `HarmonicMeanFilter.applyFilter`: CSS-blur fallback on pixel-access
failure. -/
def applyFilter (k : ℕ) (read : PixelRead) : FilterOutcome :=
  match read with
  | none => .fallbackBlur
  | some img => .result (processImageData k img)

end HarmonicMeanFilter

namespace ContraharmonicMeanFilter

open XuLyAnh

/-- Source `ContraharmonicMeanFilter.applyFilter`: CSS-blur fallback on
pixel-access failure. -/
def applyFilter (k : ℕ) (Q : ℤ) (read : PixelRead) : FilterOutcome :=
  match read with
  | none => .fallbackBlur
  | some img => .result (processImageData k Q img)

end ContraharmonicMeanFilter

namespace GaussianFilter

open XuLyAnh

/-- Source `GaussianFilter.applyFilter`: CSS-blur fallback on pixel-access
failure. -/
noncomputable def applyFilter (sigma : ℝ) (k : ℕ) (read : PixelRead) : FilterOutcome :=
  match read with
  | none => .fallbackBlur
  | some img => .result (processImageData sigma k img)

end GaussianFilter

namespace MinFilter

open XuLyAnh

/-- Source `MinFilter.applyFilter`: on a pixel-access failure the promise is
rejected with the error (`reject(corsError)`); there is no fallback. -/
def applyFilter (k : ℕ) (read : PixelRead) : FilterOutcome :=
  match read with
  | none => .rejected
  | some img => .result (processImageData k img)

end MinFilter

namespace MaxFilter

open XuLyAnh

/-- Source `MaxFilter.applyFilter`: rejected on pixel-access failure, no
fallback. -/
def applyFilter (k : ℕ) (read : PixelRead) : FilterOutcome :=
  match read with
  | none => .rejected
  | some img => .result (processImageData k img)

end MaxFilter

namespace MidpointFilter

open XuLyAnh

/-- Source `MidpointFilter.applyFilter`: rejected on pixel-access failure, no
fallback. -/
def applyFilter (k : ℕ) (read : PixelRead) : FilterOutcome :=
  match read with
  | none => .rejected
  | some img => .result (processImageData k img)

end MidpointFilter

namespace XuLyAnh

/-- 3×3 test image of §8 of the spec: all R, G, B channels 200 except
pixel (0,0) whose R, G, B are 0; alpha 255 everywhere. -/
def img3 : Img :=
  { width := 3
    height := 3
    data := fun i => if i % 4 = 3 then 255 else if i / 4 = 0 then 0 else 200 }

/-- 1×1 test raster with every channel value 100: the flat neighborhood
that exposes the 16-bit histogram wrap of the median filter at kernel
size 257. -/
def imgFlat : Img :=
  { width := 1
    height := 1
    data := fun _ => 100 }

/-- Modelled from the spec's words (§4.1): "if `c < 0`, reflect to `|c|`;
if `c ≥ n`, reflect to `n − 1 − (c − n + 1)`; finally clamp the result into
`[0, n−1]`" — stated with `|·|` for comparison with the source's
`reflect`. -/
def reflectSpec (c : ℤ) (n : ℕ) : ℤ :=
  let r1 : ℤ := if c < 0 then |c| else c
  let r2 : ℤ := if r1 ≥ (n : ℤ) then (n : ℤ) - 1 - (r1 - (n : ℤ) + 1) else r1
  max 0 (min ((n : ℤ) - 1) r2)

/-- A filter pass preserves the raster frame at offset `i`: dimensions and
the channel value there. -/
def framePreservedAt (F : Img → Img) (img : Img) (i : ℕ) : Prop :=
  (F img).width = img.width ∧ (F img).height = img.height ∧
    (F img).data i = img.data i

/-- All nine filter constructions reject this kernel size. -/
def allConstructionsFail (k : ℕ) : Prop :=
  MeanFilter.construct k = none ∧ MedianFilter.construct k = none ∧
  MinFilter.construct k = none ∧ MaxFilter.construct k = none ∧
  MidpointFilter.construct k = none ∧ GeometricMeanFilter.construct k = none ∧
  HarmonicMeanFilter.construct k = none ∧
  (∀ Q : ℤ, ContraharmonicMeanFilter.construct k Q = none) ∧
  (∀ sigma : ℚ, GaussianFilter.construct sigma (some k) = none)

/-- All nine filter constructions accept this kernel size. -/
def allConstructionsSucceed (k : ℕ) : Prop :=
  (MeanFilter.construct k).isSome = true ∧ (MedianFilter.construct k).isSome = true ∧
  (MinFilter.construct k).isSome = true ∧ (MaxFilter.construct k).isSome = true ∧
  (MidpointFilter.construct k).isSome = true ∧
  (GeometricMeanFilter.construct k).isSome = true ∧
  (HarmonicMeanFilter.construct k).isSome = true ∧
  (∀ Q : ℤ, (ContraharmonicMeanFilter.construct k Q).isSome = true) ∧
  (∀ sigma : ℚ, (GaussianFilter.construct sigma (some k)).isSome = true)

end XuLyAnh

namespace XuLyAnh

theorem processRGB_alpha (img : Img) (f : ℕ → ℕ → ℕ → ℤ) (i : ℕ)
    (hi : i % 4 = 3) : (processRGB img f).data i = img.data i := by
  simp [processRGB, hi]

/-- C2.  Constructing any aggregator filter or a Gaussian filter with an
explicitly supplied kernel size fails (the constructor throws, so no pixel
is ever processed) exactly when the size is even; sizes 3, 5, 7 and 9 are
accepted by every constructor. -/
theorem even_kernel_size_rejected (k : ℕ) :
    (k % 2 = 0 → allConstructionsFail k) ∧
    (k = 3 ∨ k = 5 ∨ k = 7 ∨ k = 9 → allConstructionsSucceed k) := by
  constructor
  · intro h
    refine ⟨?_, ?_, ?_, ?_, ?_, ?_, ?_, fun Q => ?_, fun sigma => ?_⟩ <;>
      simp [MeanFilter.construct, MedianFilter.construct, MinFilter.construct,
        MaxFilter.construct, MidpointFilter.construct, GeometricMeanFilter.construct,
        HarmonicMeanFilter.construct, ContraharmonicMeanFilter.construct,
        GaussianFilter.construct, h]
  · intro h
    have hodd : k % 2 = 1 := by rcases h with rfl | rfl | rfl | rfl <;> rfl
    refine ⟨?_, ?_, ?_, ?_, ?_, ?_, ?_, fun Q => ?_, fun sigma => ?_⟩ <;>
      simp [MeanFilter.construct, MedianFilter.construct, MinFilter.construct,
        MaxFilter.construct, MidpointFilter.construct, GeometricMeanFilter.construct,
        HarmonicMeanFilter.construct, ContraharmonicMeanFilter.construct,
        GaussianFilter.construct, hodd]

theorem even_kernel_size_rejected_witness :
    ((2 : ℕ) % 2 = 0 ∧ allConstructionsFail 2) ∧
    (((3 : ℕ) = 3 ∨ (3 : ℕ) = 5 ∨ (3 : ℕ) = 7 ∨ (3 : ℕ) = 9) ∧ allConstructionsSucceed 3) :=
  ⟨⟨rfl, (even_kernel_size_rejected 2).1 rfl⟩,
   ⟨Or.inl rfl, (even_kernel_size_rejected 3).2 (Or.inl rfl)⟩⟩

/-- C3.  The boundary policy of the aggregator filters reflects (`|c|` for
`c < 0`, `n − 1 − (c − n + 1)` for `c ≥ n`) and then clamps into
`[0, n−1]`; consequently on the 3×3 test image (all 200 except corner 0)
the arithmetic mean with kernel size 3 at that corner is
`round(1600 / 9) = 178`, the sum over the literal reflected neighborhood,
with the corner pixel sampled exactly once — not the edge-clamped value. -/
theorem reflect_boundary_policy_and_corner_mean :
    (∀ (c : ℤ) (n : ℕ), reflect c n = reflectSpec c n) ∧
    (MeanFilter.processImageData 3 img3).data 0 = 178 ∧
    jround (((0 : ℚ) + 8 * 200) / 9) = 178 ∧
    ((offs 1).flatMap (fun dy => (offs 1).map
      (fun dx => samplePos img3 0 0 dx dy))).count (0, 0) = 1 := by
  refine ⟨fun c n => ?_, ?_, ?_, ?_⟩
  · unfold reflect reflectSpec
    rcases lt_or_le c 0 with h | h
    · simp [h, abs_of_neg h]
    · simp [not_lt.2 h]
  · have h : neigh img3 1 0 0 0 = [200, 200, 200, 200, 0, 200, 200, 200, 200] := by
      decide
    simp only [MeanFilter.processImageData, processRGB]
    norm_num [MeanFilter.calculateMeanValue, h, jround, ustore, clamp255, List.sum]
    rfl
  · norm_num [jround]
  · decide

/-- C1.  Every filter kind (Mean, Median, Min, Max, Midpoint,
GeometricMean, HarmonicMean, ContraharmonicMean, Gaussian) produces an
output raster with the input's width and height, and copies the input
alpha value unchanged at every alpha offset (`i % 4 = 3`). -/
theorem alpha_and_dimensions_preserved (k : ℕ) (Q : ℤ) (sigma : ℝ)
    (img : Img) (i : ℕ) (hi : i % 4 = 3) :
    framePreservedAt (MeanFilter.processImageData k) img i ∧
    framePreservedAt (MedianFilter.processImageData k) img i ∧
    framePreservedAt (MinFilter.processImageData k) img i ∧
    framePreservedAt (MaxFilter.processImageData k) img i ∧
    framePreservedAt (MidpointFilter.processImageData k) img i ∧
    framePreservedAt (GeometricMeanFilter.processImageData k) img i ∧
    framePreservedAt (HarmonicMeanFilter.processImageData k) img i ∧
    framePreservedAt (ContraharmonicMeanFilter.processImageData k Q) img i ∧
    framePreservedAt (GaussianFilter.processImageData sigma k) img i := by
  refine ⟨?_, ?_, ?_, ?_, ?_, ?_, ?_, ?_, ?_⟩ <;>
    refine ⟨rfl, rfl, ?_⟩ <;>
    simp only [MeanFilter.processImageData, MedianFilter.processImageData,
      MinFilter.processImageData, MaxFilter.processImageData,
      MidpointFilter.processImageData, GeometricMeanFilter.processImageData,
      HarmonicMeanFilter.processImageData, ContraharmonicMeanFilter.processImageData,
      GaussianFilter.processImageData, GaussianFilter.applyVerticalConvolution,
      GaussianFilter.applyHorizontalConvolution, processRGB_alpha _ _ _ hi]

theorem alpha_and_dimensions_preserved_witness :
    (3 : ℕ) % 4 = 3 ∧
    (framePreservedAt (MeanFilter.processImageData 3) img3 3 ∧
     framePreservedAt (MedianFilter.processImageData 3) img3 3 ∧
     framePreservedAt (MinFilter.processImageData 3) img3 3 ∧
     framePreservedAt (MaxFilter.processImageData 3) img3 3 ∧
     framePreservedAt (MidpointFilter.processImageData 3) img3 3 ∧
     framePreservedAt (GeometricMeanFilter.processImageData 3) img3 3 ∧
     framePreservedAt (HarmonicMeanFilter.processImageData 3) img3 3 ∧
     framePreservedAt (ContraharmonicMeanFilter.processImageData 3 1) img3 3 ∧
     framePreservedAt (GaussianFilter.processImageData 1 3) img3 3) :=
  ⟨rfl, alpha_and_dimensions_preserved 3 1 1 img3 3 rfl⟩

/-- C5.  For every `sigma > 0` and every odd kernel size, the normalized
1-D Gaussian kernel's entries sum to 1.0 within 1e-6. -/
theorem gaussian_kernel_sums_to_one (sigma : ℝ) (_hs : 0 < sigma) (k : ℕ)
    (hk : k % 2 = 1) :
    |(∑ i ∈ Finset.range k, GaussianFilter.kernel sigma k i) - 1| ≤ 1/1000000 := by
  have hkpos : 0 < k := by omega
  have hpos : 0 < GaussianFilter.kernelSum sigma k :=
    Finset.sum_pos (fun i _ => Real.exp_pos _) ⟨0, Finset.mem_range.2 hkpos⟩
  have hsum : ∑ i ∈ Finset.range k, GaussianFilter.kernel sigma k i = 1 := by
    simp only [GaussianFilter.kernel]
    rw [← Finset.sum_div, ← GaussianFilter.kernelSum, div_self hpos.ne']
  rw [hsum]
  norm_num

theorem gaussian_kernel_sums_to_one_witness :
    (0 : ℝ) < 1 ∧ (3 : ℕ) % 2 = 1 ∧
    |(∑ i ∈ Finset.range 3, GaussianFilter.kernel 1 3 i) - 1| ≤ 1/1000000 :=
  ⟨by norm_num, rfl, gaussian_kernel_sums_to_one 1 (by norm_num) 3 rfl⟩

theorem reflect_of_lt (x n : ℕ) (h : x < n) : reflect (x : ℤ) n = (x : ℤ) := by
  unfold reflect
  simp only
  rw [if_neg (by omega), if_neg (by omega)]
  omega

theorem ustore_coe_of_le (v : ℕ) (h : v ≤ 255) : ustore (v : ℤ) = v := by
  unfold ustore clamp255
  omega

/-- Decode the flat offset arithmetic of one `processRGB` store: the output
R, G or B value at pixel `(x, y)` is the stored per-pixel result. -/
theorem processRGB_rgb (img : Img) (f : ℕ → ℕ → ℕ → ℤ) (x y ch : ℕ)
    (hx : x < img.width) (hch : ch < 3) :
    (processRGB img f).data ((y * img.width + x) * 4 + ch) = ustore (f x y ch) := by
  have hw : 0 < img.width := lt_of_le_of_lt (Nat.zero_le x) hx
  have hmod : ((y * img.width + x) * 4 + ch) % 4 = ch := by
    rw [Nat.mul_comm _ 4, Nat.mul_add_mod]
    exact Nat.mod_eq_of_lt (by omega)
  have hdiv : ((y * img.width + x) * 4 + ch) / 4 = y * img.width + x := by
    rw [Nat.mul_comm _ 4, Nat.mul_add_div (by norm_num)]
    omega
  have hxm : (y * img.width + x) % img.width = x := by
    rw [Nat.mul_comm y _, Nat.mul_add_mod]
    exact Nat.mod_eq_of_lt hx
  have hyd : (y * img.width + x) / img.width = y := by
    rw [Nat.mul_comm y _, Nat.mul_add_div hw, Nat.div_eq_of_lt hx]
    omega
  simp only [processRGB, hmod, hdiv, hxm, hyd]
  rw [if_neg (by omega)]

theorem offs_zero : offs 0 = [0] := by decide

theorem neigh_radius_zero (img : Img) (x y ch : ℕ) :
    neigh img 0 x y ch = [sampleAt img x y 0 0 ch] := by
  simp [neigh, offs_zero]

theorem sampleAt_center (img : Img) (x y ch : ℕ) (hx : x < img.width)
    (hy : y < img.height) :
    sampleAt img x y 0 0 ch = img.data ((y * img.width + x) * 4 + ch) := by
  simp [sampleAt, samplePos, reflect_of_lt _ _ hx, reflect_of_lt _ _ hy]

theorem calculateMeanValue_single (v : ℕ) :
    MeanFilter.calculateMeanValue [v] = (v : ℤ) := by
  simp only [MeanFilter.calculateMeanValue, List.sum_cons, List.sum_nil,
    List.length_cons, List.length_nil, jround]
  norm_num

theorem img3_wellFormed : img3.wellFormed := by
  intro i
  simp only [img3, Img.wellFormed]
  split_ifs <;> omega

/-- C8.  Constructing an ArithmeticMean filter with kernel size 1 succeeds,
and applying it leaves every R, G and B channel of every well-formed input
raster unchanged. -/
theorem mean_kernel_one_identity :
    (MeanFilter.construct 1).isSome = true ∧
    ∀ (img : Img), img.wellFormed → ∀ x y ch : ℕ,
      x < img.width → y < img.height → ch < 3 →
      (MeanFilter.processImageData 1 img).data ((y * img.width + x) * 4 + ch)
        = img.data ((y * img.width + x) * 4 + ch) := by
  refine ⟨rfl, fun img hwf x y ch hx hy hch => ?_⟩
  rw [MeanFilter.processImageData, processRGB_rgb _ _ _ _ _ hx hch]
  rw [show (1 : ℕ) / 2 = 0 from rfl, neigh_radius_zero,
    sampleAt_center _ _ _ _ hx hy, calculateMeanValue_single]
  exact ustore_coe_of_le _ (hwf _)

theorem mean_kernel_one_identity_witness :
    img3.wellFormed ∧ 1 < img3.width ∧ 0 < img3.height ∧ 0 < 3 ∧
    (MeanFilter.processImageData 1 img3).data ((0 * img3.width + 1) * 4 + 0)
      = img3.data ((0 * img3.width + 1) * 4 + 0) :=
  ⟨img3_wellFormed, by decide, by decide, by decide,
   mean_kernel_one_identity.2 img3 img3_wellFormed 1 0 0 (by decide) (by decide)
     (by decide)⟩

theorem jround_bounds (q : ℚ) (h0 : 0 ≤ q) (h1 : q < 511/2) :
    0 ≤ jround q ∧ jround q ≤ 255 := by
  unfold jround
  constructor
  · exact Int.le_floor.2 (by push_cast; linarith)
  · have : ⌊q + 1/2⌋ < 256 := Int.floor_lt.2 (by push_cast; linarith)
    omega

theorem jroundR_bounds (x : ℝ) (h0 : 0 ≤ x) (h1 : x < 511/2) :
    0 ≤ jroundR x ∧ jroundR x ≤ 255 := by
  unfold jroundR
  constructor
  · exact Int.le_floor.2 (by push_cast; linarith)
  · have : ⌊x + 1/2⌋ < 256 := Int.floor_lt.2 (by push_cast; linarith)
    omega

theorem eps_pos : (0 : ℚ) < eps := by norm_num [eps]

theorem eps_lt_half : eps < 1/2 := by norm_num [eps]

theorem epsR_pos : (0 : ℝ) < epsR := by
  rw [epsR]
  exact_mod_cast eps_pos

theorem epsR_lt_half : epsR < 1/2 := by
  rw [epsR, show ((1 : ℝ)/2) = ((1/2 : ℚ) : ℝ) by norm_num]
  exact_mod_cast eps_lt_half

theorem offs_length (r : ℕ) : (offs r).length = 2*r+1 := by
  simp [offs]

theorem flatMap_length_const {α β : Type} (l : List α) (f : α → List β) (c : ℕ)
    (h : ∀ a ∈ l, (f a).length = c) : (l.flatMap f).length = l.length * c := by
  induction l with
  | nil => simp
  | cons a t ih =>
    rw [List.flatMap_cons, List.length_append, h a (List.mem_cons_self a t),
      ih (fun b hb => h b (List.mem_cons_of_mem a hb)), List.length_cons]
    ring

theorem neigh_length (img : Img) (r x y ch : ℕ) :
    (neigh img r x y ch).length = (2*r+1) * (2*r+1) := by
  rw [neigh, flatMap_length_const _ _ (2*r+1)
    (fun dy _ => by rw [List.length_map, offs_length]), offs_length]

theorem neigh_ne_nil (img : Img) (r x y ch : ℕ) : neigh img r x y ch ≠ [] := by
  intro h
  have := neigh_length img r x y ch
  rw [h] at this
  simp at this

theorem neigh_le_255 (img : Img) (hwf : img.wellFormed) (r x y ch : ℕ) :
    ∀ v ∈ neigh img r x y ch, v ≤ 255 := by
  intro v hv
  simp only [neigh, List.mem_flatMap, List.mem_map] at hv
  obtain ⟨dy, _, dx, _, rfl⟩ := hv
  exact hwf _

theorem sum_cast_le (l : List ℕ) (h : ∀ v ∈ l, v ≤ 255) :
    (l.sum : ℚ) ≤ 255 * l.length := by
  have h1 : l.sum ≤ l.length • 255 := List.sum_le_card_nsmul l 255 h
  have h2 : l.sum ≤ 255 * l.length := by
    rw [smul_eq_mul] at h1
    omega
  exact_mod_cast h2

theorem foldl_min_le (l : List ℕ) (a : ℕ) : l.foldl Nat.min a ≤ a := by
  induction l generalizing a with
  | nil => simp
  | cons x t ih =>
    calc (x :: t).foldl Nat.min a = t.foldl Nat.min (Nat.min a x) := rfl
      _ ≤ Nat.min a x := ih _
      _ ≤ a := Nat.min_le_left _ _

theorem foldl_max_le (l : List ℕ) :
    ∀ a : ℕ, a ≤ 255 → (∀ v ∈ l, v ≤ 255) → l.foldl Nat.max a ≤ 255 := by
  induction l with
  | nil => intro a ha _; simpa using ha
  | cons x t ih =>
    intro a ha h
    have hx := h x (List.mem_cons_self x t)
    exact ih (Nat.max a x) (Nat.max_le.2 ⟨ha, hx⟩)
      (fun v hv => h v (List.mem_cons_of_mem x hv))

theorem findMedian_le_255 (l : List ℕ) (mIdx : ℕ) :
    MedianFilter.findMedian l mIdx ≤ 255 := by
  unfold MedianFilter.findMedian
  cases hf : (List.range 256).find? (fun i => mIdx ≤ MedianFilter.cumul l i) with
  | none => simp
  | some a =>
    have := List.mem_of_find?_eq_some hf
    have := List.mem_range.1 this
    simpa using by omega

/-- The inverse-sample sum of the harmonic mean is at least
`count / (255 + eps)` on a well-formed neighborhood. -/
theorem invsum_lower (l : List ℕ) (h : ∀ v ∈ l, v ≤ 255) :
    (l.length : ℚ) * (1 / (255 + eps)) ≤
      (l.map (fun v : ℕ => 1 / ((v : ℚ) + eps))).sum := by
  have hb : ∀ x ∈ l.map (fun v : ℕ => 1 / ((v : ℚ) + eps)), 1 / (255 + eps) ≤ x := by
    intro x hx
    simp only [List.mem_map] at hx
    obtain ⟨v, hv, rfl⟩ := hx
    have h255 : (v : ℚ) + eps ≤ 255 + eps := by
      have : (v : ℚ) ≤ 255 := by exact_mod_cast h v hv
      linarith
    have hpos : (0 : ℚ) < (v : ℚ) + eps :=
      add_pos_of_nonneg_of_pos (Nat.cast_nonneg v) eps_pos
    exact one_div_le_one_div_of_le hpos h255
  have := List.card_nsmul_le_sum (l.map (fun v : ℕ => 1 / ((v : ℚ) + eps)))
    (1 / (255 + eps)) hb
  rw [List.length_map, nsmul_eq_mul] at this
  exact this

theorem invsum_pos (l : List ℕ) (hne : l ≠ []) :
    0 < (l.map (fun v : ℕ => 1 / ((v : ℚ) + eps))).sum := by
  refine List.sum_pos _ ?_ ?_
  · intro x hx
    simp only [List.mem_map] at hx
    obtain ⟨v, _, rfl⟩ := hx
    exact one_div_pos.2 (add_pos_of_nonneg_of_pos (Nat.cast_nonneg v) eps_pos)
  · intro hmap
    exact hne (List.map_eq_nil_iff.1 hmap)

/-- C10.  On any non-empty neighborhood of 8-bit samples, every aggregator
without an explicit output clamp (ArithmeticMean, Min, Max, Midpoint,
Median, GeometricMean, HarmonicMean) produces an integer channel value in
`[0, 255]`: the epsilon-guarded formulas cannot round outside that range. -/
theorem aggregator_outputs_in_range (l : List ℕ) (hne : l ≠ [])
    (h255 : ∀ v ∈ l, v ≤ 255) (mIdx : ℕ) :
    (0 ≤ MeanFilter.calculateMeanValue l ∧ MeanFilter.calculateMeanValue l ≤ 255) ∧
    MinFilter.calculateMinValue l ≤ 255 ∧
    MaxFilter.calculateMaxValue l ≤ 255 ∧
    (0 ≤ MidpointFilter.calculateMidpointValue l ∧
      MidpointFilter.calculateMidpointValue l ≤ 255) ∧
    MedianFilter.findMedian l mIdx ≤ 255 ∧
    (0 ≤ GeometricMeanFilter.calculateGeometricMean l ∧
      GeometricMeanFilter.calculateGeometricMean l ≤ 255) ∧
    (0 ≤ HarmonicMeanFilter.calculateHarmonicMean l ∧
      HarmonicMeanFilter.calculateHarmonicMean l ≤ 255) := by
  have hN : 0 < l.length := List.length_pos.2 hne
  have hNq : (0 : ℚ) < (l.length : ℚ) := by exact_mod_cast hN
  refine ⟨?_, foldl_min_le l 255, foldl_max_le l 0 (by norm_num) h255, ?_,
    findMedian_le_255 l mIdx, ?_, ?_⟩
  · rw [MeanFilter.calculateMeanValue]
    apply jround_bounds
    · exact div_nonneg (Nat.cast_nonneg _) hNq.le
    · have h1 : (l.sum : ℚ) / (l.length : ℚ) ≤ 255 :=
        (div_le_iff₀ hNq).2 (by simpa [mul_comm] using sum_cast_le l h255)
      linarith
  · rw [MidpointFilter.calculateMidpointValue]
    apply jround_bounds
    · positivity
    · have hm : ((l.foldl Nat.min 255 : ℕ) : ℚ) ≤ 255 := by
        exact_mod_cast foldl_min_le l 255
      have hM : ((l.foldl Nat.max 0 : ℕ) : ℚ) ≤ 255 := by
        exact_mod_cast foldl_max_le l 0 (by norm_num) h255
      linarith
  · rw [GeometricMeanFilter.calculateGeometricMean]
    have hNr : (0 : ℝ) < (l.length : ℝ) := by exact_mod_cast hN
    have hc : (0 : ℝ) < 255 + epsR := by linarith [epsR_pos]
    have hb : ∀ x ∈ l.map (fun v : ℕ => Real.log ((v : ℝ) + epsR)),
        x ≤ Real.log (255 + epsR) := by
      intro x hx
      simp only [List.mem_map] at hx
      obtain ⟨v, hv, rfl⟩ := hx
      have hv255 : (v : ℝ) ≤ 255 := by exact_mod_cast h255 v hv
      have hvpos : (0 : ℝ) < (v : ℝ) + epsR :=
        add_pos_of_nonneg_of_pos (Nat.cast_nonneg v) epsR_pos
      exact (Real.log_le_log_iff hvpos hc).2 (by linarith)
    have hsum := List.sum_le_card_nsmul
      (l.map (fun v : ℕ => Real.log ((v : ℝ) + epsR))) (Real.log (255 + epsR)) hb
    rw [List.length_map, nsmul_eq_mul] at hsum
    have hdiv : (l.map (fun v : ℕ => Real.log ((v : ℝ) + epsR))).sum / (l.length : ℝ)
        ≤ Real.log (255 + epsR) := (div_le_iff₀ hNr).2 (by linarith [hsum])
    have hexp : Real.exp ((l.map (fun v : ℕ => Real.log ((v : ℝ) + epsR))).sum
        / (l.length : ℝ)) ≤ 255 + epsR := by
      calc Real.exp _ ≤ Real.exp (Real.log (255 + epsR)) := Real.exp_le_exp.2 hdiv
        _ = 255 + epsR := Real.exp_log hc
    apply jroundR_bounds
    · exact (Real.exp_pos _).le
    · linarith [epsR_lt_half]
  · rw [HarmonicMeanFilter.calculateHarmonicMean]
    have hT := invsum_pos l hne
    have hTl := invsum_lower l h255
    have hce : (0 : ℚ) < 255 + eps := by linarith [eps_pos]
    apply jround_bounds
    · exact div_nonneg (Nat.cast_nonneg _) hT.le
    · have h1 : (l.length : ℚ) ≤ (255 + eps) *
          (l.map (fun v : ℕ => 1 / ((v : ℚ) + eps))).sum := by
        have h2 : (255 + eps) * ((l.length : ℚ) * (1 / (255 + eps)))
            = (l.length : ℚ) := by field_simp
        calc (l.length : ℚ) = (255 + eps) * ((l.length : ℚ) * (1 / (255 + eps))) :=
              h2.symm
          _ ≤ (255 + eps) * (l.map (fun v : ℕ => 1 / ((v : ℚ) + eps))).sum :=
              mul_le_mul_of_nonneg_left hTl hce.le
      have hq : (l.length : ℚ) / (l.map (fun v : ℕ => 1 / ((v : ℚ) + eps))).sum
          ≤ 255 + eps := (div_le_iff₀ hT).2 (by linarith)
      linarith [eps_lt_half]

theorem aggregator_outputs_in_range_witness :
    ([0, 200] : List ℕ) ≠ [] ∧ (∀ v ∈ ([0, 200] : List ℕ), v ≤ 255) ∧
    ((0 ≤ MeanFilter.calculateMeanValue [0, 200] ∧
        MeanFilter.calculateMeanValue [0, 200] ≤ 255) ∧
      MinFilter.calculateMinValue [0, 200] ≤ 255 ∧
      MaxFilter.calculateMaxValue [0, 200] ≤ 255 ∧
      (0 ≤ MidpointFilter.calculateMidpointValue [0, 200] ∧
        MidpointFilter.calculateMidpointValue [0, 200] ≤ 255) ∧
      MedianFilter.findMedian [0, 200] 5 ≤ 255 ∧
      (0 ≤ GeometricMeanFilter.calculateGeometricMean [0, 200] ∧
        GeometricMeanFilter.calculateGeometricMean [0, 200] ≤ 255) ∧
      (0 ≤ HarmonicMeanFilter.calculateHarmonicMean [0, 200] ∧
        HarmonicMeanFilter.calculateHarmonicMean [0, 200] ≤ 255)) :=
  ⟨by decide, by decide,
   aggregator_outputs_in_range [0, 200] (by decide) (by decide) 5⟩

theorem jround_close (a b : ℚ) (h : |a - b| ≤ 1/2) :
    |jround a - jround b| ≤ 1 := by
  rw [abs_le] at h
  unfold jround
  have h1 : ⌊a + 1/2⌋ ≤ ⌊b + 1/2⌋ + 1 := by
    calc ⌊a + 1/2⌋ ≤ ⌊(b + 1/2) + 1⌋ := Int.floor_le_floor (by linarith)
      _ = ⌊b + 1/2⌋ + 1 := Int.floor_add_one _
  have h2 : ⌊b + 1/2⌋ ≤ ⌊a + 1/2⌋ + 1 := by
    calc ⌊b + 1/2⌋ ≤ ⌊(a + 1/2) + 1⌋ := Int.floor_le_floor (by linarith)
      _ = ⌊a + 1/2⌋ + 1 := Int.floor_add_one _
  rw [abs_le]
  omega

theorem clamp255_close (a b : ℤ) (hb0 : 0 ≤ b) (hb : b ≤ 255)
    (h : |a - b| ≤ 1) : |clamp255 a - b| ≤ 1 := by
  rw [clamp255]
  rw [abs_le] at h ⊢
  omega

theorem map_add_eps_sum (l : List ℕ) :
    (l.map (fun v : ℕ => (v : ℚ) + eps)).sum = (l.sum : ℚ) + l.length * eps := by
  induction l with
  | nil => simp
  | cons a t ih =>
    rw [List.map_cons, List.sum_cons, ih, List.sum_cons, List.length_cons]
    push_cast
    ring

theorem map_one_sum (l : List ℕ) :
    (l.map (fun _ : ℕ => (1 : ℚ))).sum = (l.length : ℚ) := by
  rw [List.map_const', List.sum_replicate, nsmul_eq_mul, mul_one]

/-- C7.  On identical neighborhoods the ContraharmonicMean with `Q = 0`
agrees with the ArithmeticMean within ±1, and with `Q = −1` agrees with the
HarmonicMean within ±1, per channel, with the `epsilon = 1e-10` guards of
the source formulas. -/
theorem contraharmonic_degenerate_cases (l : List ℕ) (hne : l ≠ [])
    (h255 : ∀ v ∈ l, v ≤ 255) :
    |ContraharmonicMeanFilter.calculateContraharmonicMean 0 l -
      MeanFilter.calculateMeanValue l| ≤ 1 ∧
    |ContraharmonicMeanFilter.calculateContraharmonicMean (-1) l -
      HarmonicMeanFilter.calculateHarmonicMean l| ≤ 1 := by
  have hN : 0 < l.length := List.length_pos.2 hne
  have hN1 : (1 : ℚ) ≤ (l.length : ℚ) := by exact_mod_cast hN
  have hNq : (0 : ℚ) < (l.length : ℚ) := by linarith
  have hS0 : (0 : ℚ) ≤ (l.sum : ℚ) := Nat.cast_nonneg _
  have hS : (l.sum : ℚ) ≤ 255 * (l.length : ℚ) := sum_cast_le l h255
  constructor
  · have hfnum : (fun v : ℕ => ((v : ℚ) + eps) ^ ((0 : ℤ) + 1))
        = (fun v : ℕ => (v : ℚ) + eps) := by
      funext v
      norm_num
    have hfden : (fun v : ℕ => ((v : ℚ) + eps) ^ (0 : ℤ))
        = (fun _ : ℕ => (1 : ℚ)) := by
      funext v
      exact zpow_zero _
    have hcontra : ContraharmonicMeanFilter.calculateContraharmonicMean 0 l
        = clamp255 (jround (((l.sum : ℚ) + (l.length : ℚ) * eps)
            / ((l.length : ℚ) + eps))) := by
      rw [ContraharmonicMeanFilter.calculateContraharmonicMean, hfnum, hfden,
        map_add_eps_sum, map_one_sum]
    have hmean : MeanFilter.calculateMeanValue l
        = jround ((l.sum : ℚ) / (l.length : ℚ)) := rfl
    set N : ℚ := (l.length : ℚ) with hNdef
    set S : ℚ := (l.sum : ℚ) with hSdef
    have hNne : N ≠ 0 := hNq.ne'
    have hNeps : N + eps ≠ 0 := by
      have := eps_pos
      intro hc
      linarith [hc]
    have hPpos : 0 < N * (N + eps) := by nlinarith [eps_pos]
    have hd : ((S + N * eps) / (N + eps) - S / N) * (N * (N + eps))
        = eps * (N^2 - S) := by
      field_simp
      ring
    have habs : |(S + N * eps) / (N + eps) - S / N| ≤ 1/2 := by
      have h1 : |(S + N * eps) / (N + eps) - S / N| * (N * (N + eps))
          = eps * |N^2 - S| := by
        rw [show N * (N + eps) = |N * (N + eps)| from (abs_of_pos hPpos).symm,
          ← abs_mul, hd, abs_mul, abs_of_pos eps_pos]
      have h2 : |N^2 - S| ≤ N^2 + 255 * N := by
        rw [abs_le]
        constructor <;> nlinarith
      have h256 : (256 : ℚ) * eps ≤ 1/2 := by norm_num [eps]
      have hNN : N ≤ N^2 := by nlinarith
      have h3 : eps * (N^2 + 255 * N) ≤ (1/2) * (N * (N + eps)) := by
        have e2 : (255 * eps) * N ≤ (255 * eps) * N^2 :=
          mul_le_mul_of_nonneg_left hNN (mul_nonneg (by norm_num) eps_pos.le)
        have e3 : (256 * eps) * N^2 ≤ (1/2) * N^2 :=
          mul_le_mul_of_nonneg_right h256 (sq_nonneg N)
        have e4 : 0 ≤ N * eps := mul_nonneg hNq.le eps_pos.le
        nlinarith [e2, e3, e4]
      have h4 : |(S + N * eps) / (N + eps) - S / N| * (N * (N + eps))
          ≤ (1/2) * (N * (N + eps)) := by
        rw [h1]
        calc eps * |N^2 - S| ≤ eps * (N^2 + 255 * N) :=
              mul_le_mul_of_nonneg_left h2 eps_pos.le
          _ ≤ (1/2) * (N * (N + eps)) := h3
      exact le_of_mul_le_mul_right h4 hPpos
    have hbbound : 0 ≤ jround (S / N) ∧ jround (S / N) ≤ 255 := by
      apply jround_bounds
      · exact div_nonneg hS0 hNq.le
      · have : S / N ≤ 255 := (div_le_iff₀ hNq).2 (by linarith)
        linarith
    rw [hcontra, hmean]
    exact clamp255_close _ _ hbbound.1 hbbound.2
      (jround_close _ _ habs)
  · have hfnum2 : (fun v : ℕ => ((v : ℚ) + eps) ^ ((-1 : ℤ) + 1))
        = (fun _ : ℕ => (1 : ℚ)) := by
      funext v
      norm_num
    have hfden2 : (fun v : ℕ => ((v : ℚ) + eps) ^ (-1 : ℤ))
        = (fun v : ℕ => 1 / ((v : ℚ) + eps)) := by
      funext v
      rw [show (-1 : ℤ) = -(1 : ℤ) from rfl, zpow_neg, zpow_one, one_div]
    have hcontra2 : ContraharmonicMeanFilter.calculateContraharmonicMean (-1) l
        = clamp255 (jround ((l.length : ℚ)
            / ((l.map (fun v : ℕ => 1 / ((v : ℚ) + eps))).sum + eps))) := by
      rw [ContraharmonicMeanFilter.calculateContraharmonicMean, hfnum2, hfden2,
        map_one_sum]
    have hharm : HarmonicMeanFilter.calculateHarmonicMean l
        = jround ((l.length : ℚ) / (l.map (fun v : ℕ => 1 / ((v : ℚ) + eps))).sum) :=
      rfl
    have hT := invsum_pos l hne
    have hTl := invsum_lower l h255
    set N : ℚ := (l.length : ℚ) with hNdef
    set T : ℚ := (l.map (fun v : ℕ => 1 / ((v : ℚ) + eps))).sum with hTdef
    have h256T : N / 256 ≤ T := by
      have h1 : (255 : ℚ) + eps ≤ 256 := by norm_num [eps]
      have h2 : (1 : ℚ) / 256 ≤ 1 / (255 + eps) :=
        one_div_le_one_div_of_le (by linarith [eps_pos]) h1
      calc N / 256 = N * (1 / 256) := by ring
        _ ≤ N * (1 / (255 + eps)) := by nlinarith
        _ ≤ T := hTl
    have hTe : 0 < T + eps := by linarith [eps_pos]
    have hP : 0 < T * (T + eps) := mul_pos hT hTe
    have hd : (N / (T + eps) - N / T) * (T * (T + eps)) = -(N * eps) := by
      field_simp
      ring
    have habs : |N / (T + eps) - N / T| ≤ 1/2 := by
      have h1 : |N / (T + eps) - N / T| * (T * (T + eps)) = N * eps := by
        rw [show T * (T + eps) = |T * (T + eps)| from (abs_of_pos hP).symm,
          ← abs_mul, hd, abs_neg, abs_mul, abs_of_nonneg (by positivity : (0:ℚ) ≤ N),
          abs_of_pos eps_pos]
      have h2 : (N / 256) * (N / 256) ≤ T * (T + eps) :=
        mul_le_mul h256T (le_trans h256T (by linarith [eps_pos]))
          (by positivity) hT.le
      have heps2 : eps ≤ 1 / 131072 := by norm_num [eps]
      have hNN : N ≤ N * N := by nlinarith
      have h3 : N * eps ≤ (1/2) * (T * (T + eps)) := by
        have e1 : N * eps ≤ N * (1 / 131072) :=
          mul_le_mul_of_nonneg_left heps2 (by positivity)
        have e2 : N * (1 / 131072) ≤ (N * N) * (1 / 131072) :=
          mul_le_mul_of_nonneg_right hNN (by norm_num)
        have e3 : (N * N) * (1 / 131072) = (1/2) * ((N / 256) * (N / 256)) := by
          ring
        have e4 : (1/2) * ((N / 256) * (N / 256)) ≤ (1/2) * (T * (T + eps)) := by
          linarith [h2]
        linarith
      have h4 : |N / (T + eps) - N / T| * (T * (T + eps))
          ≤ (1/2) * (T * (T + eps)) := by
        rw [h1]
        exact h3
      exact le_of_mul_le_mul_right h4 hP
    have hbbound : 0 ≤ jround (N / T) ∧ jround (N / T) ≤ 255 := by
      apply jround_bounds
      · exact div_nonneg (by positivity) hT.le
      · have hce : (0 : ℚ) < 255 + eps := by linarith [eps_pos]
        have h1 : N ≤ (255 + eps) * T := by
          have h2 : (255 + eps) * (N * (1 / (255 + eps))) = N := by field_simp
          calc N = (255 + eps) * (N * (1 / (255 + eps))) := h2.symm
            _ ≤ (255 + eps) * T := mul_le_mul_of_nonneg_left hTl hce.le
        have hq : N / T ≤ 255 + eps := (div_le_iff₀ hT).2 (by linarith)
        linarith [eps_lt_half]
    rw [hcontra2, hharm]
    exact clamp255_close _ _ hbbound.1 hbbound.2 (jround_close _ _ habs)

theorem contraharmonic_degenerate_cases_witness :
    ([0, 200] : List ℕ) ≠ [] ∧ (∀ v ∈ ([0, 200] : List ℕ), v ≤ 255) ∧
    (|ContraharmonicMeanFilter.calculateContraharmonicMean 0 [0, 200] -
        MeanFilter.calculateMeanValue [0, 200]| ≤ 1 ∧
      |ContraharmonicMeanFilter.calculateContraharmonicMean (-1) [0, 200] -
        HarmonicMeanFilter.calculateHarmonicMean [0, 200]| ≤ 1) :=
  ⟨by decide, by decide,
   contraharmonic_degenerate_cases [0, 200] (by decide) (by decide)⟩

theorem count_range (a n : ℕ) : (List.range n).count a = if a < n then 1 else 0 := by
  induction n with
  | zero => simp
  | succ n ih =>
    rw [List.range_succ, List.count_append, ih, List.count_singleton']
    split_ifs <;> omega

theorem sum_map_add_nat {α : Type} (l : List α) (f g : α → ℕ) :
    (l.map (fun x => f x + g x)).sum = (l.map f).sum + (l.map g).sum := by
  induction l with
  | nil => simp
  | cons a t ih =>
    rw [List.map_cons, List.sum_cons, ih, List.map_cons, List.sum_cons,
      List.map_cons, List.sum_cons]
    omega

theorem sum_map_indicator (a : ℕ) (l : List ℕ) :
    (l.map (fun v => if a = v then 1 else 0)).sum = l.count a := by
  induction l with
  | nil => simp
  | cons b t ih =>
    rw [List.map_cons, List.sum_cons, ih, List.count_cons]
    by_cases h : a = b
    · rw [if_pos h, if_pos (by simp [h])]
      omega
    · rw [if_neg h, if_neg (by simp [Ne.symm h])]
      omega

theorem countSum_cons (a : ℕ) (t : List ℕ) (i : ℕ) :
    ((List.range (i+1)).map (fun v => (a :: t).count v)).sum
      = ((List.range (i+1)).map (fun v => t.count v)).sum
        + (if a ≤ i then 1 else 0) := by
  have hcount : ((List.range (i+1)).map (fun v => (a :: t).count v))
      = (List.range (i+1)).map (fun v => t.count v + if a = v then 1 else 0) :=
    List.map_congr_left (fun v _ => by
      rw [List.count_cons]
      simp)
  rw [hcount, sum_map_add_nat, sum_map_indicator, count_range]
  congr 1
  simp [Nat.lt_succ_iff]

theorem countSum_eq_countP (l : List ℕ) (i : ℕ) :
    ((List.range (i+1)).map (fun v => l.count v)).sum
      = l.countP (fun v => v ≤ i) := by
  induction l with
  | nil => simp
  | cons a t ih =>
    rw [countSum_cons, ih, List.countP_cons]
    simp

theorem hist_eq_count (l : List ℕ) (v : ℕ) (h : l.length < 65536) :
    MedianFilter.hist l v = l.count v := by
  unfold MedianFilter.hist
  exact Nat.mod_eq_of_lt (lt_of_le_of_lt (List.count_le_length v l) h)

/-- Below 65536 samples the 16-bit bins cannot wrap, and the cumulative
histogram count is the number of samples `≤ i`. -/
theorem cumul_eq_countP (l : List ℕ) (i : ℕ) (h : l.length < 65536) :
    MedianFilter.cumul l i = l.countP (fun v => v ≤ i) := by
  unfold MedianFilter.cumul
  rw [List.map_congr_left (fun v _ => hist_eq_count l v h), countSum_eq_countP]

theorem find?_range_eq_some {p : ℕ → Bool} (n m : ℕ) (hm : m < n)
    (hpm : p m = true) (hmin : ∀ j < m, p j = false) :
    (List.range n).find? p = some m := by
  induction n with
  | zero => omega
  | succ n ih =>
    rw [List.range_succ, List.find?_append]
    rcases Nat.lt_or_ge m n with h | h
    · rw [ih h]
      rfl
    · have hm_eq : m = n := by omega
      subst hm_eq
      have hnone : (List.range m).find? p = none :=
        List.find?_eq_none.2 (fun x hx => by
          rw [hmin x (List.mem_range.1 hx)]
          simp)
      rw [hnone]
      simp [List.find?, hpm]

theorem sorted_rank_lower (s : List ℕ) (hs : List.Sorted (· ≤ ·) s) (j : ℕ)
    (hj : j < s.length) :
    j + 1 ≤ s.countP (fun v => v ≤ s[j]) := by
  have hts : s.take (j+1) ++ s.drop (j+1) = s := List.take_append_drop _ _
  have hlt : (s.take (j+1)).length = j+1 := by
    simp
    omega
  have htake : (s.take (j+1)).countP (fun v => v ≤ s[j]) = j+1 := by
    rw [List.countP_eq_length.2, hlt]
    intro a ha
    obtain ⟨i, hi, ha'⟩ := List.mem_iff_getElem.1 ha
    rw [List.getElem_take] at ha'
    have hij : i ≤ j := by omega
    have hi2 : i < s.length := by omega
    have hle : s[i] ≤ s[j] := by
      rcases Nat.lt_or_ge i j with h | h
      · exact (List.pairwise_iff_getElem.1 hs) i j (by omega) hj h
      · have : i = j := by omega
        subst this
        exact le_refl _
    rw [← ha']
    simpa using hle
  calc j + 1 = (s.take (j+1)).countP (fun v => v ≤ s[j]) := htake.symm
    _ ≤ (s.take (j+1)).countP (fun v => v ≤ s[j])
        + (s.drop (j+1)).countP (fun v => v ≤ s[j]) := Nat.le_add_right _ _
    _ = s.countP (fun v => v ≤ s[j]) := by rw [← List.countP_append, hts]

theorem sorted_rank_upper (s : List ℕ) (hs : List.Sorted (· ≤ ·) s) (j : ℕ)
    (hj : j < s.length) (i : ℕ) (hi : i < s[j]) :
    s.countP (fun v => v ≤ i) ≤ j := by
  have hts : s.take j ++ s.drop j = s := List.take_append_drop _ _
  have hdrop : (s.drop j).countP (fun v => v ≤ i) = 0 := by
    rw [List.countP_eq_zero]
    intro a ha
    obtain ⟨idx, hidx, ha'⟩ := List.mem_iff_getElem.1 ha
    rw [List.getElem_drop] at ha'
    have hidx2 : j + idx < s.length := by
      have h0 := hidx
      simp at h0
      omega
    have hge : s[j] ≤ s[j + idx] := by
      rcases Nat.eq_zero_or_pos idx with h0 | h0
      · subst h0
        simp
      · exact (List.pairwise_iff_getElem.1 hs) j (j + idx) hj hidx2 (by omega)
    rw [← ha']
    simp
    omega
  calc s.countP (fun v => v ≤ i)
      = (s.take j).countP (fun v => v ≤ i)
        + (s.drop j).countP (fun v => v ≤ i) := by rw [← List.countP_append, hts]
    _ = (s.take j).countP (fun v => v ≤ i) := by rw [hdrop]; omega
    _ ≤ (s.take j).length := List.countP_le_length _
    _ ≤ j := by simp

/-- The histogram scan of `findMedian` with rank `j + 1` returns exactly
the `(j+1)`-th smallest neighborhood sample (0-indexed `j` in the sorted
order), for 8-bit samples. -/
theorem findMedian_eq_rank (l : List ℕ) (h255 : ∀ v ∈ l, v ≤ 255)
    (hsmall : l.length < 65536) (j : ℕ) (hj : j < l.length) :
    MedianFilter.findMedian l (j+1) = ((l : Multiset ℕ).sort (· ≤ ·)).getD j 0 := by
  set s := Multiset.sort (· ≤ ·) (l : Multiset ℕ) with hsdef
  have hperm : s.Perm l := Multiset.coe_eq_coe.1 (Multiset.sort_eq _ _)
  have hsorted : List.Sorted (· ≤ ·) s := Multiset.sort_sorted _ _
  have hlen : s.length = l.length := hperm.length_eq
  have hjs : j < s.length := by omega
  have hm255 : s[j] ≤ 255 := h255 _ (hperm.mem_iff.1 (s.getElem_mem hjs))
  have hcount : ∀ i : ℕ, MedianFilter.cumul l i = s.countP (fun v => v ≤ i) := by
    intro i
    rw [cumul_eq_countP l i hsmall, hperm.countP_eq]
  have hfind : (List.range 256).find?
      (fun i => decide (j + 1 ≤ MedianFilter.cumul l i)) = some s[j] := by
    apply find?_range_eq_some
    · omega
    · rw [decide_eq_true_eq, hcount]
      exact sorted_rank_lower s hsorted j hjs
    · intro i hi
      rw [decide_eq_false_iff_not, hcount]
      have := sorted_rank_upper s hsorted j hjs i hi
      omega
  rw [MedianFilter.findMedian]
  rw [show (fun i => decide (j + 1 ≤ MedianFilter.cumul l i))
      = (fun i => j + 1 ≤ MedianFilter.cumul l i : ℕ → Bool) from rfl] at hfind
  rw [hfind]
  rw [List.getD_eq_getElem _ 0 hjs]
  rfl

/-- C4 (amended).  For every odd kernel size at most 255 — the range in
which the `Uint16Array` histogram bins cannot wrap, since a bin count is at
most `N = k² ≤ 65025 < 2^16` — the Median filter's 256-bin histogram scan
returns the exact order statistic of the `N = size²` neighborhood samples
at rank `floor(N/2) + 1`: the value stored is the `(floor(N/2)+1)`-th
smallest sample (index `floor(N/2)` of the sorted neighborhood).  For
kernel size 257 the bins wrap modulo `2^16` and the scan no longer
computes the order statistic (see `median_histogram_wrap_counterexample`). -/
theorem median_is_order_statistic (k : ℕ) (hk : k % 2 = 1) (hk255 : k ≤ 255)
    (img : Img) (hwf : img.wellFormed) (x y ch : ℕ) (hx : x < img.width)
    (hch : ch < 3) :
    (MedianFilter.processImageData k img).data ((y * img.width + x) * 4 + ch)
      = ((neigh img (k/2) x y ch : Multiset ℕ).sort (· ≤ ·)).getD ((k*k)/2) 0 := by
  have hlen : (neigh img (k/2) x y ch).length = k * k := by
    rw [neigh_length]
    have h1 : 2 * (k/2) + 1 = k := by omega
    rw [h1]
  have hkk : 1 ≤ k * k := Nat.one_le_iff_ne_zero.2 (by
    have : 1 ≤ k := by omega
    intro hc
    rcases Nat.mul_eq_zero.1 hc with h | h <;> omega)
  have hj : (k*k)/2 < (neigh img (k/2) x y ch).length := by
    rw [hlen]
    omega
  have hsmall : (neigh img (k/2) x y ch).length < 65536 := by
    rw [hlen]
    calc k * k ≤ 255 * 255 := Nat.mul_le_mul hk255 hk255
      _ < 65536 := by norm_num
  rw [MedianFilter.processImageData, processRGB_rgb _ _ _ _ _ hx hch,
    ustore_coe_of_le _ (findMedian_le_255 _ _)]
  exact findMedian_eq_rank _ (neigh_le_255 img hwf _ _ _ _) hsmall _ hj

theorem median_is_order_statistic_witness :
    (3 : ℕ) % 2 = 1 ∧ (3 : ℕ) ≤ 255 ∧ img3.wellFormed ∧ 0 < img3.width ∧ 0 < 3 ∧
    (MedianFilter.processImageData 3 img3).data ((0 * img3.width + 0) * 4 + 0)
      = ((neigh img3 (3/2) 0 0 0 : Multiset ℕ).sort (· ≤ ·)).getD ((3*3)/2) 0 :=
  ⟨rfl, by decide, img3_wellFormed, by decide, by decide,
   median_is_order_statistic 3 rfl (by decide) img3 img3_wellFormed 0 0 0
     (by decide) (by decide)⟩

theorem neigh_imgFlat_all (r x y ch : ℕ) :
    ∀ u ∈ neigh imgFlat r x y ch, u = 100 := by
  intro u hu
  simp only [neigh, List.mem_flatMap, List.mem_map] at hu
  obtain ⟨dy, _, dx, _, rfl⟩ := hu
  rfl

theorem neigh_imgFlat_length : (neigh imgFlat 128 0 0 0).length = 66049 := by
  rw [neigh_length]

theorem hist_imgFlat (v : ℕ) :
    MedianFilter.hist (neigh imgFlat 128 0 0 0) v
      = if v = 100 then 513 else 0 := by
  unfold MedianFilter.hist
  by_cases hv : v = 100
  · subst hv
    rw [List.count_eq_length.2
        (fun b hb => (neigh_imgFlat_all 128 0 0 0 b hb).symm),
      neigh_imgFlat_length, if_pos rfl]
  · rw [List.count_eq_zero.2
        (fun hmem => hv (neigh_imgFlat_all 128 0 0 0 v hmem)), if_neg hv]

theorem sum_range_single (n a c : ℕ) :
    ((List.range n).map (fun v => if v = a then c else 0)).sum
      = if a < n then c else 0 := by
  induction n with
  | zero => simp
  | succ n ih =>
    rw [List.range_succ, List.map_append, List.sum_append, ih]
    simp only [List.map_cons, List.map_nil, List.sum_cons, List.sum_nil]
    split_ifs <;> omega

theorem cumul_imgFlat (i : ℕ) :
    MedianFilter.cumul (neigh imgFlat 128 0 0 0) i
      = if 100 ≤ i then 513 else 0 := by
  unfold MedianFilter.cumul
  rw [List.map_congr_left (fun v _ => hist_imgFlat v), sum_range_single]
  have h1 : 100 < i + 1 ↔ 100 ≤ i := Nat.lt_succ_iff
  split_ifs with h2 h3 <;> omega

/-- At kernel size 257 on the flat raster, no cumulative bin count ever
reaches the median rank 33025 — every bin has wrapped to 513 or 0 — so the
scan falls through and returns 255. -/
theorem findMedian_imgFlat :
    MedianFilter.findMedian (neigh imgFlat 128 0 0 0)
      (MedianFilter.medianIndex 257) = 255 := by
  unfold MedianFilter.findMedian
  have hfind : (List.range 256).find?
      (fun i => MedianFilter.medianIndex 257
        ≤ MedianFilter.cumul (neigh imgFlat 128 0 0 0) i) = none := by
    apply List.find?_eq_none.2
    intro x _
    simp only [decide_eq_true_eq]
    rw [cumul_imgFlat]
    have hmi : MedianFilter.medianIndex 257 = 33025 := by
      norm_num [MedianFilter.medianIndex]
    rw [hmi]
    split_ifs <;> omega
  rw [hfind]
  rfl

theorem median_output_imgFlat :
    (MedianFilter.processImageData 257 imgFlat).data
      ((0 * imgFlat.width + 0) * 4 + 0) = 255 := by
  rw [MedianFilter.processImageData,
    processRGB_rgb _ _ _ _ _ (by decide) (by decide),
    show (257 : ℕ) / 2 = 128 from rfl, findMedian_imgFlat]
  rfl

theorem median_rank_imgFlat :
    ((neigh imgFlat (257/2) 0 0 0 : Multiset ℕ).sort (· ≤ ·)).getD
      ((257*257)/2) 0 = 100 := by
  rw [show (257 : ℕ) / 2 = 128 from rfl]
  set s := Multiset.sort (· ≤ ·) ((neigh imgFlat 128 0 0 0 : List ℕ) : Multiset ℕ)
    with hs
  have hperm : s.Perm (neigh imgFlat 128 0 0 0) :=
    Multiset.coe_eq_coe.1 (Multiset.sort_eq _ _)
  have hlen : s.length = (neigh imgFlat 128 0 0 0).length := hperm.length_eq
  have hjs : (257*257)/2 < s.length := by
    rw [hlen, neigh_imgFlat_length]
    norm_num
  rw [List.getD_eq_getElem _ 0 hjs]
  exact neigh_imgFlat_all 128 0 0 0 _ (hperm.mem_iff.1 (s.getElem_mem hjs))

/-- C4 counterexample.  At kernel size 257 (odd) on a well-formed flat 1×1
raster, every hypothesis of the original claim holds, but the Median
filter's `Uint16Array` bins wrap modulo `2^16`: the single occupied bin
holds `66049 % 65536 = 513`, the cumulative count never reaches the rank
`33025`, and the scan returns 255 while the true order statistic of the
neighborhood is 100.  The claim quantified over every kernel size is
therefore false at size 257. -/
theorem median_histogram_wrap_counterexample :
    (257 : ℕ) % 2 = 1 ∧ imgFlat.wellFormed ∧ 0 < imgFlat.width ∧ (0 : ℕ) < 3 ∧
    (MedianFilter.processImageData 257 imgFlat).data
      ((0 * imgFlat.width + 0) * 4 + 0) = 255 ∧
    ((neigh imgFlat (257/2) 0 0 0 : Multiset ℕ).sort (· ≤ ·)).getD
      ((257*257)/2) 0 = 100 ∧
    (MedianFilter.processImageData 257 imgFlat).data
      ((0 * imgFlat.width + 0) * 4 + 0)
      ≠ ((neigh imgFlat (257/2) 0 0 0 : Multiset ℕ).sort (· ≤ ·)).getD
          ((257*257)/2) 0 := by
  refine ⟨rfl, fun i => by norm_num [imgFlat], by decide, by decide,
    median_output_imgFlat, median_rank_imgFlat, ?_⟩
  rw [median_output_imgFlat, median_rank_imgFlat]
  norm_num

/-- C9.  When reading the source raster's pixels fails, the Mean, Median,
GeometricMean, HarmonicMean, ContraharmonicMean and Gaussian filters
resolve with the lower-fidelity blur fallback, while the Min, Max and
Midpoint filters reject with the error and produce no fallback. -/
theorem cors_fallback_split (k : ℕ) (Q : ℤ) (sigma : ℝ) :
    MeanFilter.applyFilter k none = .fallbackBlur ∧
    MedianFilter.applyFilter k none = .fallbackBlur ∧
    GeometricMeanFilter.applyFilter k none = .fallbackBlur ∧
    HarmonicMeanFilter.applyFilter k none = .fallbackBlur ∧
    ContraharmonicMeanFilter.applyFilter k Q none = .fallbackBlur ∧
    GaussianFilter.applyFilter sigma k none = .fallbackBlur ∧
    MinFilter.applyFilter k none = .rejected ∧
    MaxFilter.applyFilter k none = .rejected ∧
    MidpointFilter.applyFilter k none = .rejected :=
  ⟨rfl, rfl, rfl, rfl, rfl, rfl, rfl, rfl, rfl⟩

end XuLyAnh
